import Mathlib

/-!
# Record Store & Reconciler — verification development

Shallow embedding of the record-update reconciliation logic of the
employee-dashboard repository.  Two revisions of the edit-submit handler are
modelled (`editSubmitOrig` from `employee_dashboard.py`, `editSubmitFixed`
from `employee_dashboard_fixed.py`), together with the add-employee submit
handler (`addSubmit`, identical in both revisions) and the filter engine
(`apply_filters_fast`).

Cells are modelled by `Value` (string / number / date / null, where null
stands for Python `None` and pandas `NaN`); a row is an association list from
column name to `Value`, mirroring the Python dicts and pandas `Series`
appearing in the handlers; a `Table` is an ordered column list plus an
ordered row list, mirroring the pandas `DataFrame` held in
`st.session_state.employee_df`.  The user-visible `st.error` outcomes are
modelled by `EditError` following the spec's error taxonomy
(`ValidationError` for the required-field guard, `NotFoundError` for the
zero-match lookup guard, `IntegrityError` for the row-count-mismatch guard).
-/

/-- A scalar cell value: string, number, date (day ordinal), or null
(Python `None` / pandas `NaN`). -/
inductive Value where
  | null : Value
  | str : String → Value
  | num : Int → Value
  | date : Nat → Value
deriving DecidableEq, Repr

/-- Python truthiness test (`if x:`) on cell values: `None`, `""` and `0`
are falsy, every other modelled value is truthy. -/
def pyFalsy : Value → Bool
  | Value.null => true
  | Value.str s => decide (s = "")
  | Value.num n => decide (n = 0)
  | Value.date _ => false

/-- pandas elementwise `==` against a scalar: a null cell (NaN) compares
unequal to everything, including null. -/
def pdEq : Value → Value → Bool
  | Value.null, _ => false
  | _, Value.null => false
  | v, w => decide (v = w)

/-- `s.strip() == ''` in Python: every character of `s` is whitespace
(true in particular for the empty string). -/
def isBlank (s : String) : Bool := s.data.all (fun c => c.isWhitespace)

/-- The test of the normalization loop
`if value == '' or (isinstance(value, str) and value.strip() == '')`:
true exactly for empty or whitespace-only strings. -/
def stripNull : Value → Bool
  | Value.str s => decide (s = "") || isBlank s
  | _ => false

/-- One step of the normalization loop: empty / whitespace-only strings
become null, everything else is untouched. -/
def stripApply (v : Value) : Value := if stripNull v then Value.null else v

/-- The two mandatory form fields, kept raw in the submitted dict
(`'Preferred Name': preferred_name, 'Work Email': work_email`). -/
def isMandatory (k : String) : Bool :=
  decide (k = "Preferred Name") || decide (k = "Work Email")

/-- The per-field coercion of the dict literal building `updated_employee` /
`new_employee`: mandatory fields are stored raw, every other field goes
through `x if x else None` (Python truthiness). -/
def buildStep (k : String) (v : Value) : Value :=
  if isMandatory k then v else if pyFalsy v then Value.null else v

/-- Net normalization a form field undergoes before being stored by the edit
handler: the dict-literal coercion followed by the empty-string strip loop. -/
def normalizeField (k : String) (v : Value) : Value := stripApply (buildStep k v)

/-- A row / record / submitted form: an ordered association list from column
name to value (models Python dicts and pandas `Series`). -/
abbrev Row := List (String × Value)

/-- First-occurrence lookup of a key in a row, as in a Python dict or pandas
`Series` access. -/
def rlookup (c : String) : Row → Option Value
  | [] => none
  | kv :: rest => if kv.1 = c then some kv.2 else rlookup c rest

/-- `row.get(col, None)` / `row[col]` where an absent column reads as null. -/
def getCell (r : Row) (c : String) : Value := (rlookup c r).getD Value.null

/-- `Series.get(col, default)`: the stored value if the key is present,
otherwise the supplied default. -/
def seriesGet (r : Row) (c : String) (dflt : Value) : Value := (rlookup c r).getD dflt

/-- `df.loc[idx, col] = v` restricted to one row: overwrite the value at an
existing key, or append the binding when the key is new. -/
def setCell (r : Row) (c : String) (v : Value) : Row :=
  if (rlookup c r).isSome then r.map (fun kv => if kv.1 = c then (kv.1, v) else kv)
  else r ++ [(c, v)]

/-- Effect on one row of `df[col] = None` for each new column `c ∈ cs`:
the row gains a null binding for each added column. -/
def extendRow (r : Row) (cs : List String) : Row := r ++ cs.map (fun c => (c, Value.null))

/-- The carry-forward loop
`for col in df.columns: if col not in updated_employee: updated_employee[col] = <default col>`:
every listed column absent from the patch is appended with the supplied
default value (dict insertion order). -/
def carryForwardD (patch : Row) (cols : List String) (dflt : String → Value) : Row :=
  match cols with
  | [] => patch
  | c :: cs =>
      carryForwardD (if (rlookup c patch).isSome then patch else patch ++ [(c, dflt c)]) cs dflt

/-- The strip loop `for key, value in updated_employee.items(): ...`: every
empty / whitespace-only string value in the patch is replaced by null. -/
def stripPatch (p : Row) : Row := p.map (fun kv => (kv.1, stripApply kv.2))

/-- The dict literal building `updated_employee` / `new_employee` from raw
form values: each field keyed by its column name, coerced by `buildStep`. -/
def buildPatch (p : Row) : Row := p.map (fun kv => (kv.1, buildStep kv.1 kv.2))

/-- The fixed revision's row assignment
`for col in original_df.columns: if col in updated_employee: original_df.loc[actual_idx, col] = updated_employee[col]`. -/
def assignRowIf (r : Row) (cols : List String) (patch : Row) : Row :=
  match cols with
  | [] => r
  | c :: cs =>
      assignRowIf (if (rlookup c patch).isSome then setCell r c (getCell patch c) else r) cs patch

/-- The original revision's row assignment
`for col in original_df.columns: original_df.loc[actual_idx, col] = row_data.get(col, None)`. -/
def assignRowAll (r : Row) (cols : List String) (data : Row) : Row :=
  match cols with
  | [] => r
  | c :: cs => assignRowAll (setCell r c (getCell data c)) cs data

/-- The in-memory table: ordered column list plus ordered row list, modelling
the pandas `DataFrame` in `st.session_state.employee_df`. -/
structure Table where
  cols : List String
  rows : List Row
deriving DecidableEq, Repr

/-- The session-start table: no columns, no rows. -/
def Table.empty : Table := ⟨[], []⟩

/-- The spec's user-visible error taxonomy, mapped onto the handlers'
`st.error` call sites. -/
inductive EditError where
  | validationError : EditError
  | notFoundError : EditError
  | integrityError : EditError
deriving DecidableEq, Repr

/-- The post-merge row-count gate
`if new_count != original_count: st.error(...) else: st.session_state.employee_df = updated_df`:
on a count mismatch the session keeps the pre-update table and an integrity
error is surfaced; otherwise the merged table is committed. -/
def commitGate (told tNew : Table) : Table × Option EditError :=
  if tNew.rows.length ≠ told.rows.length then (told, some EditError.integrityError)
  else (tNew, none)

/-- `df[df['Work Email'] == email]`: the rows matching the identity value
under pandas equality. -/
def emailMatches (t : Table) (email : Value) : List Row :=
  t.rows.filter (fun r => pdEq (getCell r "Work Email") email)

/-- `df[email_mask].index[0]`: the position of the first row matching the
identity value. -/
def targetIdxFixed (t : Table) (email : Value) : Nat :=
  t.rows.findIdx (fun r => pdEq (getCell r "Work Email") email)

/-- `df[df['Work Email'] == selected_email].iloc[0]` as computed when the
fixed revision's edit form is rendered. -/
def selectedRowFixed (t : Table) (email : Value) : Row :=
  (emailMatches t email).headD []

/-- The original revision's identity resolution
`mask = df['Work Email'] == original_email; actual_idx = selected_idx if mask.sum() == 0 else df[mask].index[0]`:
first match by email value, silently falling back to the stored positional
index when the email matches no row. -/
def actualIdxOrig (t : Table) (selectedIdx : Nat) (selEmp : Row) : Nat :=
  if (emailMatches t (getCell selEmp "Work Email")).isEmpty then selectedIdx
  else targetIdxFixed t (getCell selEmp "Work Email")

/-- The columns the patch introduces beyond the table's current columns
(`for key in updated_employee.keys(): if key not in original_df.columns: original_df[key] = None`). -/
def newColsOf (t : Table) (patch : Row) : List String :=
  (patch.map Prod.fst).filter (fun c => decide (c ∉ t.cols))

/-- The first carry-forward loop (shared by both revisions):
`for col in df.columns: if col not in updated_employee: updated_employee[col] = selected_employee.get(col, None)`
applied to the freshly built dict. -/
def patchA (t : Table) (selEmp : Row) (form : Row) : Row :=
  carryForwardD (buildPatch form) t.cols (fun c => seriesGet selEmp c Value.null)

/-- The second carry-forward loop (shared by both revisions):
same loop again, with default
`selected_employee.get(col, original_df.loc[actual_idx, col] if actual_idx in original_df.index else None)`. -/
def patchB (t : Table) (selEmp : Row) (actualIdx : Nat) (form : Row) : Row :=
  carryForwardD (patchA t selEmp form) t.cols
    (fun c => seriesGet selEmp c
      (if actualIdx < t.rows.length then getCell (t.rows.getD actualIdx []) c else Value.null))

/-- The merged copy `updated_df` built by the fixed revision's submit
handler before the commit gate: dict build and the two carry-forward loops
(`patchB`, against `selected_employee` resolved from the current table),
new-column reconciliation, empty-string normalization (`stripPatch`), and
the conditional per-column row assignment at the first row matching the
selected email. -/
def mergedTableFixed (t : Table) (selectedEmail : Value) (form : Row) : Table :=
  let selEmp := selectedRowFixed t selectedEmail
  let actualIdx := targetIdxFixed t selectedEmail
  let patch2 := patchB t selEmp actualIdx form
  let nCols := newColsOf t patch2
  let colsU := t.cols ++ nCols
  let rowsE := t.rows.map (fun r => extendRow r nCols)
  ⟨colsU, rowsE.set actualIdx (assignRowIf (rowsE.getD actualIdx []) colsU (stripPatch patch2))⟩

/-- The fixed revision's edit-form submit handler
(`employee_dashboard_fixed.py`): required-field guard, zero-match guard on
the selected email (reject with a user-visible not-found error, `st.stop()`),
otherwise the merged copy goes through the row-count commit gate.
`selectedEmail` is the identity value captured from the selection widget;
the patch-building steps are pure dict computations gathered in
`mergedTableFixed`. -/
def editSubmitFixed (t : Table) (selectedEmail : Value) (form : Row) : Table × Option EditError :=
  if pyFalsy (getCell form "Preferred Name") || pyFalsy (getCell form "Work Email") then
    (t, some EditError.validationError)
  else if (emailMatches t selectedEmail).isEmpty then
    (t, some EditError.notFoundError)
  else
    commitGate t (mergedTableFixed t selectedEmail form)

/-- The merged copy built by the original revision's submit handler
(`employee_dashboard.py`): same patch pipeline as the fixed revision but
with identity resolution `actualIdxOrig` (silent positional fallback on a
zero-match email lookup), the `row_data` staging dict, and the unconditional
per-column row assignment; an out-of-range target enlarges the frame by one
row (pandas `.loc` enlargement).  `selectedIdx` is the row position stored
when the form was opened and `selEmp` the row snapshot taken there. -/
def mergedTableOrig (t : Table) (selectedIdx : Nat) (selEmp : Row) (form : Row) : Table :=
  let actualIdx := actualIdxOrig t selectedIdx selEmp
  let patch2 := patchB t selEmp actualIdx form
  let nCols := newColsOf t patch2
  let colsU := t.cols ++ nCols
  let rowsE := t.rows.map (fun r => extendRow r nCols)
  let rowData : Row := colsU.map (fun c =>
    (c, match rlookup c (stripPatch patch2) with
        | some v => v
        | none =>
            if actualIdx < rowsE.length then getCell (rowsE.getD actualIdx []) c
            else Value.null))
  let rows2 :=
    if actualIdx < rowsE.length then
      rowsE.set actualIdx (assignRowAll (rowsE.getD actualIdx []) colsU rowData)
    else rowsE ++ [rowData]
  ⟨colsU, rows2⟩

/-- The original revision's edit-form submit handler: required-field guard,
then the merged copy (built by `mergedTableOrig`) goes through the row-count
commit gate — there is no not-found guard. -/
def editSubmitOrig (t : Table) (selectedIdx : Nat) (selEmp : Row) (form : Row) :
    Table × Option EditError :=
  if pyFalsy (getCell form "Preferred Name") || pyFalsy (getCell form "Work Email") then
    (t, some EditError.validationError)
  else
    commitGate t (mergedTableOrig t selectedIdx selEmp form)

/-- The required-field precondition of both submit forms
(`if not preferred_name or not work_email`). -/
def validForm (form : Row) : Bool :=
  !pyFalsy (getCell form "Preferred Name") && !pyFalsy (getCell form "Work Email")

/-- Column set after an append into a non-empty frame:
`all_cols = set(old) | set(new)`, realised by adding to the frame every dict
key it lacks (`if col not in st.session_state.employee_df.columns: df[col] = None`). -/
def addColsU (t : Table) (form : Row) : List String :=
  t.cols ++ newColsOf t (buildPatch form)

/-- The existing rows after the column reconciliation of an append: each row
gains a null binding for every newly added column. -/
def addRowsE (t : Table) (form : Row) : List Row :=
  t.rows.map (fun r => extendRow r (newColsOf t (buildPatch form)))

/-- The appended record after the column reconciliation
(`if col not in new_df.columns: new_df[col] = None`): the built dict plus a
null binding for every table column the dict did not supply. -/
def addNewRow (t : Table) (form : Row) : Row :=
  buildPatch form ++
    ((addColsU t form).filter (fun c => decide (c ∉ (buildPatch form).map Prod.fst))).map
      (fun c => (c, Value.null))

/-- The add-employee submit handler (identical in both revisions):
required-field guard, dict build, wholesale replacement when the frame is
empty (`df.empty`: zero rows or zero columns), otherwise column-set union
with nulls inserted on both sides followed by `pd.concat` appending the new
record as the last row. -/
def addSubmit (t : Table) (form : Row) : Table × Option EditError :=
  if pyFalsy (getCell form "Preferred Name") || pyFalsy (getCell form "Work Email") then
    (t, some EditError.validationError)
  else if t.rows.isEmpty || t.cols.isEmpty then
    (⟨(buildPatch form).map Prod.fst, [buildPatch form]⟩, none)
  else
    (⟨addColsU t form, addRowsE t form ++ [addNewRow t form]⟩, none)

/-- A sequence of append operations starting from the session-start table. -/
def appendAll (forms : List Row) : Table :=
  forms.foldl (fun t f => (addSubmit t f).1) Table.empty

/-- Python truthiness of an optional filter list (`if regions and ...`):
active only when supplied and non-empty. -/
def pyTruthyList : Option (List Value) → Bool
  | none => false
  | some l => !l.isEmpty

/-- `df[col].isin(vals)` as a boolean mask over the rows. -/
def colMask (rows : List Row) (c : String) (l : List Value) : List Bool :=
  rows.map (fun r => decide (getCell r c ∈ l))

/-- `mask &= other`: pointwise conjunction of two masks. -/
def andMask (m1 m2 : List Bool) : List Bool := List.zipWith (fun a b => a && b) m1 m2

/-- `df[mask]`: keep exactly the rows whose mask bit is true. -/
def selectRows : List Row → List Bool → List Row
  | r :: rs, b :: bs => if b then r :: selectRows rs bs else selectRows rs bs
  | _, _ => []

/-- `apply_filters_fast` (identical in both revisions): start from an
all-true mask, conjoin an `isin` mask for each supplied, non-empty predicate
whose column exists in the table, and select the surviving rows. -/
def apply_filters_fast (t : Table)
    (regions roles business_units employee_types : Option (List Value)) : Table :=
  let mask := List.replicate t.rows.length true
  let mask := if pyTruthyList regions && decide ("Region" ∈ t.cols) then
      andMask mask (colMask t.rows "Region" (regions.getD [])) else mask
  let mask := if pyTruthyList roles && decide ("Role" ∈ t.cols) then
      andMask mask (colMask t.rows "Role" (roles.getD [])) else mask
  let mask := if pyTruthyList business_units && decide ("Business Unit" ∈ t.cols) then
      andMask mask (colMask t.rows "Business Unit" (business_units.getD [])) else mask
  let mask := if pyTruthyList employee_types && decide ("Employee Type" ∈ t.cols) then
      andMask mask (colMask t.rows "Employee Type" (employee_types.getD [])) else mask
  ⟨t.cols, selectRows t.rows mask⟩

/-- Modelled from the spec (Filter Engine interface, §6): a row passes one
(column, allowed-values) predicate when the predicate is absent, its column
is absent from the table, or the row's value is a member of the allowed set. -/
def predicatePasses (t : Table) (c : String) (o : Option (List Value)) (r : Row) : Bool :=
  match o with
  | none => true
  | some l => if c ∈ t.cols then decide (getCell r c ∈ l) else true

/-- Modelled from the spec (Filter Engine interface, §6): the subset of rows
satisfying every supplied predicate. -/
def specFilterRows (t : Table)
    (regions roles business_units employee_types : Option (List Value)) : List Row :=
  t.rows.filter (fun r =>
    predicatePasses t "Region" regions r &&
    predicatePasses t "Role" roles r &&
    predicatePasses t "Business Unit" business_units r &&
    predicatePasses t "Employee Type" employee_types r)

/-! ## Association-list lemmas -/

theorem rlookup_append (c : String) (p q : Row) :
    rlookup c (p ++ q) = ((rlookup c p).rec (rlookup c q) (fun v => some v)) := by
  induction p with
  | nil => simp [rlookup]
  | cons kv rest ih =>
      by_cases h : kv.1 = c
      · simp [rlookup, h]
      · simp [rlookup, h, ih]

theorem rlookup_append_left {c : String} {p : Row} {v : Value} (q : Row)
    (h : rlookup c p = some v) : rlookup c (p ++ q) = some v := by
  rw [rlookup_append, h]

theorem rlookup_append_right {c : String} {p : Row} (q : Row)
    (h : rlookup c p = none) : rlookup c (p ++ q) = rlookup c q := by
  rw [rlookup_append, h]

theorem rlookup_keyedMap (g : String → Value → Value) (c : String) (p : Row) :
    rlookup c (p.map (fun kv => (kv.1, g kv.1 kv.2))) = (rlookup c p).map (g c) := by
  induction p with
  | nil => simp [rlookup]
  | cons kv rest ih =>
      by_cases h : kv.1 = c
      · subst h; simp [rlookup, ih]
      · simp [rlookup, h, ih]

theorem rlookup_none_iff {c : String} {p : Row} :
    rlookup c p = none ↔ c ∉ p.map Prod.fst := by
  induction p with
  | nil => simp [rlookup]
  | cons kv rest ih =>
      by_cases h : kv.1 = c
      · simp [rlookup, h]
      · simp [rlookup, h, ih, Ne.symm h]

theorem rlookup_isSome_iff {c : String} {p : Row} :
    (rlookup c p).isSome = true ↔ c ∈ p.map Prod.fst := by
  induction p with
  | nil => simp [rlookup]
  | cons kv rest ih =>
      by_cases h : kv.1 = c
      · simp [rlookup, h]
      · simp [rlookup, h, ih, Ne.symm h]

theorem rlookup_colsMap (g : String → Value) (c : String) (cols : List String) :
    rlookup c (cols.map (fun c' => (c', g c'))) = if c ∈ cols then some (g c) else none := by
  induction cols with
  | nil => simp [rlookup]
  | cons c0 cs ih =>
      by_cases h : c0 = c
      · subst h; simp [rlookup, ih]
      · simp [rlookup, h, Ne.symm h, ih]

/-! ## setCell lemmas -/

theorem rlookup_overwrite_ne {c c' : String} (h : c' ≠ c) (v : Value) (r : Row) :
    rlookup c' (r.map (fun kv => if kv.1 = c then (kv.1, v) else kv)) = rlookup c' r := by
  induction r with
  | nil => simp [rlookup]
  | cons kv rest ih =>
      by_cases hk : kv.1 = c
      · simp [rlookup, hk, Ne.symm h, ih]
      · simp [rlookup, hk, ih]

theorem rlookup_overwrite_some {c : String} {r : Row} (v : Value)
    (h : (rlookup c r).isSome = true) :
    rlookup c (r.map (fun kv => if kv.1 = c then (kv.1, v) else kv)) = some v := by
  induction r with
  | nil => simp [rlookup] at h
  | cons kv rest ih =>
      by_cases hk : kv.1 = c
      · simp [rlookup, hk]
      · simp [rlookup, hk] at h
        simp [rlookup, hk, ih h]

theorem getCell_setCell_same (r : Row) (c : String) (v : Value) :
    getCell (setCell r c v) c = v := by
  unfold setCell
  by_cases h : (rlookup c r).isSome = true
  · simp [getCell, h, rlookup_overwrite_some v h]
  · have hn : rlookup c r = none := by
      cases hx : rlookup c r with
      | none => rfl
      | some w => rw [hx] at h; simp at h
    simp [getCell, h, rlookup_append_right _ hn, rlookup]

theorem getCell_setCell_ne {c c' : String} (h : c' ≠ c) (r : Row) (v : Value) :
    getCell (setCell r c v) c' = getCell r c' := by
  unfold setCell
  by_cases hs : (rlookup c r).isSome = true
  · simp [getCell, hs, rlookup_overwrite_ne h]
  · cases hx : rlookup c' r with
    | none =>
        simp [getCell, hs, rlookup_append_right _ hx, rlookup, Ne.symm h, hx]
    | some w =>
        simp [getCell, hs, rlookup_append_left _ hx, hx]

/-! ## extendRow lemmas -/

theorem getCell_extendRow (r : Row) (cs : List String) (c : String) :
    getCell (extendRow r cs) c = getCell r c := by
  unfold extendRow
  cases hx : rlookup c r with
  | some v => simp [getCell, rlookup_append_left _ hx, hx]
  | none =>
      have : rlookup c (cs.map (fun c' => (c', Value.null))) =
          if c ∈ cs then some Value.null else none := rlookup_colsMap (fun _ => Value.null) c cs
      rw [getCell, rlookup_append_right _ hx, this]
      by_cases h : c ∈ cs <;> simp [h, getCell, hx]

theorem rlookup_extendRow_isSome (r : Row) (cs : List String) (c : String) :
    (rlookup c (extendRow r cs)).isSome = true ↔
      (rlookup c r).isSome = true ∨ c ∈ cs := by
  unfold extendRow
  cases hx : rlookup c r with
  | some v => simp [rlookup_append_left _ hx]
  | none =>
      rw [rlookup_append_right _ hx, rlookup_colsMap]
      by_cases h : c ∈ cs <;> simp [h]

/-! ## Carry-forward lemmas -/

theorem carryForwardD_preserve {c : String} {patch : Row} {v : Value}
    (cols : List String) (dflt : String → Value) (h : rlookup c patch = some v) :
    rlookup c (carryForwardD patch cols dflt) = some v := by
  induction cols generalizing patch with
  | nil => simpa [carryForwardD] using h
  | cons c0 cs ih =>
      unfold carryForwardD
      by_cases h0 : (rlookup c0 patch).isSome = true
      · simp only [h0, if_true]
        exact ih h
      · simp only [h0, if_false]
        exact ih (rlookup_append_left _ h)

theorem carryForwardD_covers {c : String} (patch : Row) (cols : List String)
    (dflt : String → Value) (h : c ∈ cols) :
    (rlookup c (carryForwardD patch cols dflt)).isSome = true := by
  induction cols generalizing patch with
  | nil => simp at h
  | cons c0 cs ih =>
      unfold carryForwardD
      rcases List.mem_cons.mp h with hc | hc
      · subst hc
        by_cases h0 : (rlookup c patch).isSome = true
        · simp only [h0, if_true]
          cases hx : rlookup c patch with
          | none => rw [hx] at h0; simp at h0
          | some v => simp [carryForwardD_preserve cs dflt hx]
        · simp only [h0, if_false]
          have hn : rlookup c patch = none := by
            cases hx : rlookup c patch with
            | none => rfl
            | some v => rw [hx] at h0; simp at h0
          have : rlookup c (patch ++ [(c, dflt c)]) = some (dflt c) := by
            rw [rlookup_append_right _ hn]; simp [rlookup]
          simp [carryForwardD_preserve cs dflt this]
      · by_cases h0 : (rlookup c0 patch).isSome = true
        · rw [if_pos h0]; exact ih _ hc
        · rw [if_neg h0]; exact ih _ hc

theorem carryForwardD_new {c : String} {patch : Row} (cols : List String)
    (dflt : String → Value) (hn : rlookup c patch = none) (h : c ∈ cols) :
    rlookup c (carryForwardD patch cols dflt) = some (dflt c) := by
  induction cols generalizing patch with
  | nil => simp at h
  | cons c0 cs ih =>
      unfold carryForwardD
      by_cases hc : c0 = c
      · subst hc
        simp only [hn, Option.isSome_none, Bool.false_eq_true, if_false]
        have : rlookup c0 (patch ++ [(c0, dflt c0)]) = some (dflt c0) := by
          rw [rlookup_append_right _ hn]; simp [rlookup]
        exact carryForwardD_preserve cs dflt this
      · have hc' : c ∈ cs := by
          rcases List.mem_cons.mp h with h' | h'
          · exact absurd h'.symm hc
          · exact h'
        by_cases h0 : (rlookup c0 patch).isSome = true
        · simp only [h0, if_true]; exact ih hn hc'
        · simp only [h0, if_false]
          have hn' : rlookup c (patch ++ [(c0, dflt c0)]) = none := by
            rw [rlookup_append_right _ hn]; simp [rlookup, hc]
          exact ih hn' hc'

theorem carryForwardD_absent {c : String} {patch : Row} (cols : List String)
    (dflt : String → Value) (hn : rlookup c patch = none) (h : c ∉ cols) :
    rlookup c (carryForwardD patch cols dflt) = none := by
  induction cols generalizing patch with
  | nil => simpa [carryForwardD] using hn
  | cons c0 cs ih =>
      unfold carryForwardD
      have hc : c0 ≠ c := fun he => h (he ▸ List.mem_cons_self c0 cs)
      have hcs : c ∉ cs := fun hm => h (List.mem_cons_of_mem _ hm)
      by_cases h0 : (rlookup c0 patch).isSome = true
      · simp only [h0, if_true]; exact ih hn hcs
      · simp only [h0, if_false]
        have hn' : rlookup c (patch ++ [(c0, dflt c0)]) = none := by
          rw [rlookup_append_right _ hn]; simp [rlookup, hc]
        exact ih hn' hcs

/-! ## Row-assignment lemmas -/

theorem assignRowIf_outside {c : String} (r : Row) (cols : List String) (patch : Row)
    (h : c ∉ cols) : getCell (assignRowIf r cols patch) c = getCell r c := by
  induction cols generalizing r with
  | nil => simp [assignRowIf]
  | cons c0 cs ih =>
      unfold assignRowIf
      have hc : c ≠ c0 := fun he => h (he ▸ List.mem_cons_self c0 cs)
      have hcs : c ∉ cs := fun hm => h (List.mem_cons_of_mem _ hm)
      by_cases h0 : (rlookup c0 patch).isSome = true
      · rw [if_pos h0, ih _ hcs, getCell_setCell_ne hc]
      · rw [if_neg h0]
        exact ih _ hcs

theorem assignRowIf_nopatch {c : String} (r : Row) (cols : List String) {patch : Row}
    (h : rlookup c patch = none) :
    getCell (assignRowIf r cols patch) c = getCell r c := by
  induction cols generalizing r with
  | nil => simp [assignRowIf]
  | cons c0 cs ih =>
      unfold assignRowIf
      by_cases h0 : (rlookup c0 patch).isSome = true
      · have hc : c ≠ c0 := by
          intro he
          rw [← he, h] at h0
          simp at h0
        rw [if_pos h0, ih _, getCell_setCell_ne hc]
      · rw [if_neg h0]
        exact ih _

theorem assignRowIf_hit {c : String} {patch : Row} {v : Value} (r : Row) (cols : List String)
    (hmem : c ∈ cols) (h : rlookup c patch = some v) :
    getCell (assignRowIf r cols patch) c = v := by
  induction cols generalizing r with
  | nil => simp at hmem
  | cons c0 cs ih =>
      unfold assignRowIf
      by_cases hcs : c ∈ cs
      · by_cases h0 : (rlookup c0 patch).isSome = true
        · rw [if_pos h0]; exact ih _ hcs
        · rw [if_neg h0]; exact ih _ hcs
      · have hc : c0 = c := by
          rcases List.mem_cons.mp hmem with h' | h'
          · exact h'.symm
          · exact absurd h' hcs
        subst hc
        have h0 : (rlookup c0 patch).isSome = true := by simp [h]
        rw [if_pos h0, assignRowIf_outside _ _ _ hcs, getCell_setCell_same, getCell, h]
        rfl

theorem assignRowAll_outside {c : String} (r : Row) (cols : List String) (data : Row)
    (h : c ∉ cols) : getCell (assignRowAll r cols data) c = getCell r c := by
  induction cols generalizing r with
  | nil => simp [assignRowAll]
  | cons c0 cs ih =>
      unfold assignRowAll
      have hc : c ≠ c0 := fun he => h (he ▸ List.mem_cons_self c0 cs)
      have hcs : c ∉ cs := fun hm => h (List.mem_cons_of_mem _ hm)
      rw [ih _ hcs, getCell_setCell_ne hc]

theorem assignRowAll_in {c : String} (r : Row) (cols : List String) (data : Row)
    (hmem : c ∈ cols) : getCell (assignRowAll r cols data) c = getCell data c := by
  induction cols generalizing r with
  | nil => simp at hmem
  | cons c0 cs ih =>
      unfold assignRowAll
      by_cases hcs : c ∈ cs
      · exact ih _ hcs
      · have hc : c0 = c := by
          rcases List.mem_cons.mp hmem with h' | h'
          · exact h'.symm
          · exact absurd h' hcs
        subst hc
        rw [assignRowAll_outside _ _ _ hcs, getCell_setCell_same]

/-! ## List index helpers -/

theorem getD_set_ne {α : Type} {l : List α} {i j : Nat} (x d : α) (h : j ≠ i) :
    (l.set i x).getD j d = l.getD j d := by
  induction l generalizing i j with
  | nil => simp [List.set]
  | cons a rest ih =>
      cases i with
      | zero =>
          cases j with
          | zero => exact absurd rfl h
          | succ j' => simp [List.set, List.getD]
      | succ i' =>
          cases j with
          | zero => simp [List.set, List.getD]
          | succ j' =>
              simp only [List.set, List.getD_cons_succ]
              exact ih (fun he => h (congrArg Nat.succ he))

theorem getD_set_self {α : Type} {l : List α} {i : Nat} (x d : α) (h : i < l.length) :
    (l.set i x).getD i d = x := by
  induction l generalizing i with
  | nil => simp at h
  | cons a rest ih =>
      cases i with
      | zero => simp [List.set, List.getD]
      | succ i' =>
          simp only [List.set, List.getD_cons_succ]
          exact ih (Nat.lt_of_succ_lt_succ h)

theorem getD_map {α β : Type} {l : List α} {i : Nat} (f : α → β) (d : β) (d' : α)
    (h : i < l.length) : (l.map f).getD i d = f (l.getD i d') := by
  induction l generalizing i with
  | nil => simp at h
  | cons a rest ih =>
      cases i with
      | zero => simp [List.getD]
      | succ i' =>
          simp only [List.map, List.getD_cons_succ]
          exact ih (Nat.lt_of_succ_lt_succ h)

theorem getD_append_left {α : Type} {l : List α} (q : List α) {i : Nat} (d : α)
    (h : i < l.length) : (l ++ q).getD i d = l.getD i d := by
  induction l generalizing i with
  | nil => simp at h
  | cons a rest ih =>
      cases i with
      | zero => simp [List.getD]
      | succ i' =>
          simp only [List.cons_append, List.getD_cons_succ]
          exact ih (Nat.lt_of_succ_lt_succ h)

theorem getD_length_append {α : Type} (l : List α) (x d : α) :
    (l ++ [x]).getD l.length d = x := by
  induction l with
  | nil => simp [List.getD]
  | cons a rest ih => simp [List.getD, ih]

/-! ## findIdx / filter helpers -/

theorem filter_isEmpty_iff {α : Type} (l : List α) (p : α → Bool) :
    (l.filter p).isEmpty = true ↔ ∀ a ∈ l, p a = false := by
  induction l with
  | nil => simp
  | cons a rest ih =>
      by_cases h : p a = true
      · simp [List.filter, h, List.isEmpty]
      · have h' : p a = false := by
          cases hx : p a with
          | false => rfl
          | true => exact absurd hx h
        simp [List.filter, h', ih]

theorem findIdx_spec {α : Type} (l : List α) (p : α → Bool) (d : α)
    (h : (l.filter p).isEmpty = false) :
    l.findIdx p < l.length ∧ p (l.getD (l.findIdx p) d) = true ∧
      (l.filter p).headD d = l.getD (l.findIdx p) d := by
  induction l with
  | nil => simp [List.filter] at h
  | cons a rest ih =>
      by_cases ha : p a = true
      · refine ⟨by simp [List.findIdx_cons, ha], ?_, ?_⟩
        · simp [List.findIdx_cons, ha, List.getD]
        · simp [List.filter, ha, List.findIdx_cons, List.getD]
      · have ha' : p a = false := by
          cases hx : p a with
          | false => rfl
          | true => exact absurd hx ha
        have h' : (rest.filter p).isEmpty = false := by
          simpa [List.filter, ha'] using h
        obtain ⟨h1, h2, h3⟩ := ih h'
        refine ⟨?_, ?_, ?_⟩
        · simpa [List.findIdx_cons, ha'] using Nat.succ_lt_succ h1
        · simpa [List.findIdx_cons, ha', List.getD] using h2
        · simpa [List.filter, ha', List.findIdx_cons, List.getD] using h3

theorem findIdx_le_of_match {α : Type} (l : List α) (p : α → Bool) (d : α) {i : Nat}
    (hi : i < l.length) (hp : p (l.getD i d) = true) : l.findIdx p ≤ i := by
  induction l generalizing i with
  | nil => simp at hi
  | cons a rest ih =>
      by_cases ha : p a = true
      · simp [List.findIdx_cons, ha]
      · have ha' : p a = false := by
          cases hx : p a with
          | false => rfl
          | true => exact absurd hx ha
        cases i with
        | zero => simp [List.getD] at hp; rw [hp] at ha'; simp at ha'
        | succ i' =>
            have := ih (Nat.lt_of_succ_lt_succ hi) (by simpa [List.getD] using hp)
            simpa [List.findIdx_cons, ha'] using Nat.succ_le_succ this

/-! ## Mask / filter-engine lemmas -/

theorem selectRows_map_pred (l : List Row) (p : Row → Bool) :
    selectRows l (l.map p) = l.filter p := by
  induction l with
  | nil => simp [selectRows]
  | cons r rs ih =>
      by_cases h : p r = true
      · simp [selectRows, List.filter, h, ih]
      · have h' : p r = false := by
          cases hx : p r with
          | false => rfl
          | true => exact absurd hx h
        simp [selectRows, List.filter, h', ih]

theorem andMask_maps (l : List Row) (p q : Row → Bool) :
    andMask (l.map p) (l.map q) = l.map (fun r => p r && q r) := by
  induction l with
  | nil => rfl
  | cons r rs ih =>
      show (p r && q r) :: andMask (rs.map p) (rs.map q) = _
      rw [ih]
      rfl

theorem replicate_length_eq_map (l : List Row) :
    List.replicate l.length true = l.map (fun _ => true) := by
  induction l with
  | nil => rfl
  | cons r rs ih =>
      show true :: List.replicate rs.length true = _
      rw [ih]
      rfl

theorem colMask_eq_map (rows : List Row) (c : String) (l : List Value) :
    colMask rows c l = rows.map (fun r => decide (getCell r c ∈ l)) := rfl

/-! ## Patch-pipeline lemmas -/

theorem rlookup_buildPatch (c : String) (form : Row) :
    rlookup c (buildPatch form) = (rlookup c form).map (buildStep c) :=
  rlookup_keyedMap buildStep c form

theorem rlookup_stripPatch (c : String) (p : Row) :
    rlookup c (stripPatch p) = (rlookup c p).map (fun v => stripApply v) :=
  rlookup_keyedMap (fun _ v => stripApply v) c p

theorem keys_buildPatch (form : Row) :
    (buildPatch form).map Prod.fst = form.map Prod.fst := by
  unfold buildPatch
  rw [List.map_map]
  rfl

theorem rlookup_patchB_form {c : String} {form : Row} {v : Value}
    (t : Table) (selEmp : Row) (actualIdx : Nat) (hc : rlookup c form = some v) :
    rlookup c (patchB t selEmp actualIdx form) = some (buildStep c v) := by
  have hb : rlookup c (buildPatch form) = some (buildStep c v) := by
    rw [rlookup_buildPatch, hc]; rfl
  exact carryForwardD_preserve _ _ (carryForwardD_preserve _ _ hb)

theorem rlookup_patchB_carry {c : String} {form : Row}
    (t : Table) (selEmp : Row) (actualIdx : Nat)
    (hct : c ∈ t.cols) (hn : rlookup c form = none) :
    rlookup c (patchB t selEmp actualIdx form) = some (getCell selEmp c) := by
  have hb : rlookup c (buildPatch form) = none := by
    rw [rlookup_buildPatch, hn]; rfl
  have h1 : rlookup c (patchA t selEmp form) = some (seriesGet selEmp c Value.null) :=
    carryForwardD_new _ _ hb hct
  exact carryForwardD_preserve _ _ h1

theorem rlookup_patchB_absent {c : String} {form : Row}
    (t : Table) (selEmp : Row) (actualIdx : Nat)
    (hct : c ∉ t.cols) (hn : rlookup c form = none) :
    rlookup c (patchB t selEmp actualIdx form) = none := by
  have hb : rlookup c (buildPatch form) = none := by
    rw [rlookup_buildPatch, hn]; rfl
  exact carryForwardD_absent _ _ (carryForwardD_absent _ _ hb hct) hct

theorem patchB_covers {c : String} (t : Table) (selEmp : Row) (actualIdx : Nat) (form : Row)
    (hct : c ∈ t.cols) : (rlookup c (patchB t selEmp actualIdx form)).isSome = true :=
  carryForwardD_covers _ _ _ hct

theorem mem_colsU (t : Table) (patch : Row) (c : String) :
    c ∈ t.cols ++ newColsOf t patch ↔ c ∈ t.cols ∨ (rlookup c patch).isSome = true := by
  unfold newColsOf
  rw [List.mem_append, List.mem_filter]
  rw [← rlookup_isSome_iff (c := c) (p := patch)]
  by_cases h : c ∈ t.cols <;> simp [h]

/-! ## Identity-resolution lemmas -/

theorem targetIdxFixed_lt (t : Table) (e : Value)
    (hm : (emailMatches t e).isEmpty = false) : targetIdxFixed t e < t.rows.length :=
  (findIdx_spec t.rows _ [] hm).1

theorem targetIdxFixed_matches (t : Table) (e : Value)
    (hm : (emailMatches t e).isEmpty = false) :
    pdEq (getCell (t.rows.getD (targetIdxFixed t e) []) "Work Email") e = true :=
  (findIdx_spec t.rows _ [] hm).2.1

theorem selectedRowFixed_eq (t : Table) (e : Value)
    (hm : (emailMatches t e).isEmpty = false) :
    selectedRowFixed t e = t.rows.getD (targetIdxFixed t e) [] :=
  (findIdx_spec t.rows _ [] hm).2.2

theorem targetIdxFixed_le_of_match (t : Table) (e : Value) {i : Nat}
    (hi : i < t.rows.length)
    (hp : pdEq (getCell (t.rows.getD i []) "Work Email") e = true) :
    targetIdxFixed t e ≤ i :=
  findIdx_le_of_match t.rows _ [] hi hp

/-! ## Fixed-revision merged-table characterization -/

theorem mergedTableFixed_rows_length (t : Table) (e : Value) (form : Row) :
    (mergedTableFixed t e form).rows.length = t.rows.length := by
  simp [mergedTableFixed]

theorem mergedTableFixed_cols_sup (t : Table) (e : Value) (form : Row) {c : String}
    (hc : c ∈ t.cols) : c ∈ (mergedTableFixed t e form).cols := by
  simp only [mergedTableFixed]
  exact List.mem_append_left _ hc

theorem editSubmitFixed_commit (t : Table) (e : Value) (form : Row)
    (hval : (pyFalsy (getCell form "Preferred Name") ||
        pyFalsy (getCell form "Work Email")) = false)
    (hm : (emailMatches t e).isEmpty = false) :
    editSubmitFixed t e form = (mergedTableFixed t e form, none) := by
  unfold editSubmitFixed
  rw [if_neg (by simp [hval]), if_neg (by simp [hm])]
  unfold commitGate
  rw [if_neg (by simp [mergedTableFixed_rows_length])]

theorem mergedTableFixed_other_rows (t : Table) (e : Value) (form : Row) {k : Nat}
    (hk : k ≠ targetIdxFixed t e) (c : String) :
    getCell ((mergedTableFixed t e form).rows.getD k []) c =
      getCell (t.rows.getD k []) c := by
  simp only [mergedTableFixed]
  rw [getD_set_ne _ _ hk]
  by_cases hlt : k < t.rows.length
  · rw [getD_map _ [] [] (by simpa using hlt)]
    exact getCell_extendRow _ _ _
  · rw [List.getD_eq_default _ _ (by simpa using Nat.le_of_not_lt hlt),
      List.getD_eq_default _ _ (Nat.le_of_not_lt hlt)]

theorem mergedTableFixed_target_edited (t : Table) (e : Value) (form : Row)
    {c : String} {v : Value}
    (hm : (emailMatches t e).isEmpty = false) (hc : rlookup c form = some v) :
    getCell ((mergedTableFixed t e form).rows.getD (targetIdxFixed t e) []) c =
      normalizeField c v := by
  have hlt : targetIdxFixed t e < t.rows.length := targetIdxFixed_lt t e hm
  simp only [mergedTableFixed]
  rw [getD_set_self _ _ (by simpa using hlt)]
  have h2 := rlookup_patchB_form t (selectedRowFixed t e) (targetIdxFixed t e) hc
  have h3 : rlookup c (stripPatch (patchB t (selectedRowFixed t e) (targetIdxFixed t e) form)) =
      some (normalizeField c v) := by
    rw [rlookup_stripPatch, h2]; rfl
  refine assignRowIf_hit _ _ ?_ h3
  exact (mem_colsU t _ c).mpr (Or.inr (by simp [h2]))

theorem mergedTableFixed_target_carried (t : Table) (e : Value) (form : Row) {c : String}
    (hm : (emailMatches t e).isEmpty = false) (hct : c ∈ t.cols)
    (hn : rlookup c form = none) :
    getCell ((mergedTableFixed t e form).rows.getD (targetIdxFixed t e) []) c =
      stripApply (getCell (t.rows.getD (targetIdxFixed t e) []) c) := by
  have hlt : targetIdxFixed t e < t.rows.length := targetIdxFixed_lt t e hm
  simp only [mergedTableFixed]
  rw [getD_set_self _ _ (by simpa using hlt)]
  have h2 := rlookup_patchB_carry t (selectedRowFixed t e) (targetIdxFixed t e) hct hn
  have h3 : rlookup c (stripPatch (patchB t (selectedRowFixed t e) (targetIdxFixed t e) form)) =
      some (stripApply (getCell (selectedRowFixed t e) c)) := by
    rw [rlookup_stripPatch, h2]; rfl
  rw [assignRowIf_hit _ _ (List.mem_append_left _ hct) h3, selectedRowFixed_eq t e hm]

theorem mergedTableFixed_target_untouched (t : Table) (e : Value) (form : Row) {c : String}
    (hm : (emailMatches t e).isEmpty = false) (hct : c ∉ t.cols)
    (hn : rlookup c form = none) :
    getCell ((mergedTableFixed t e form).rows.getD (targetIdxFixed t e) []) c =
      getCell (t.rows.getD (targetIdxFixed t e) []) c := by
  have hlt : targetIdxFixed t e < t.rows.length := targetIdxFixed_lt t e hm
  simp only [mergedTableFixed]
  rw [getD_set_self _ _ (by simpa using hlt)]
  have h2 := rlookup_patchB_absent t (selectedRowFixed t e) (targetIdxFixed t e) hct hn
  have h3 : rlookup c (stripPatch (patchB t (selectedRowFixed t e) (targetIdxFixed t e) form)) =
      none := by
    rw [rlookup_stripPatch, h2]; rfl
  rw [assignRowIf_nopatch _ _ h3, getD_map _ [] [] (by simpa using hlt)]
  exact getCell_extendRow _ _ _

/-! ## Original-revision merged-table characterization -/

theorem actualIdxOrig_fallback (t : Table) (selectedIdx : Nat) (selEmp : Row)
    (hmiss : (emailMatches t (getCell selEmp "Work Email")).isEmpty = true) :
    actualIdxOrig t selectedIdx selEmp = selectedIdx := by
  unfold actualIdxOrig
  rw [if_pos hmiss]

theorem mergedTableOrig_length_inrange (t : Table) (selectedIdx : Nat) (selEmp form : Row)
    (hidx : actualIdxOrig t selectedIdx selEmp < t.rows.length) :
    (mergedTableOrig t selectedIdx selEmp form).rows.length = t.rows.length := by
  simp only [mergedTableOrig]
  rw [if_pos (by simpa using hidx)]
  simp

theorem mergedTableOrig_length_oob (t : Table) (selectedIdx : Nat) (selEmp form : Row)
    (hidx : ¬ actualIdxOrig t selectedIdx selEmp < t.rows.length) :
    (mergedTableOrig t selectedIdx selEmp form).rows.length = t.rows.length + 1 := by
  simp only [mergedTableOrig]
  rw [if_neg (by simpa using hidx)]
  simp

theorem commitGate_none {told tNew u : Table}
    (h : commitGate told tNew = (u, none)) :
    u = tNew ∧ u.rows.length = told.rows.length := by
  unfold commitGate at h
  by_cases hl : tNew.rows.length ≠ told.rows.length
  · rw [if_pos hl] at h
    have := congrArg Prod.snd h
    simp at this
  · rw [if_neg hl] at h
    have h1 := congrArg Prod.fst h
    simp at h1
    subst h1
    exact ⟨rfl, of_not_not hl⟩

theorem editSubmitOrig_commit (t : Table) (selectedIdx : Nat) (selEmp form : Row)
    (hval : (pyFalsy (getCell form "Preferred Name") ||
        pyFalsy (getCell form "Work Email")) = false)
    (hidx : actualIdxOrig t selectedIdx selEmp < t.rows.length) :
    editSubmitOrig t selectedIdx selEmp form =
      (mergedTableOrig t selectedIdx selEmp form, none) := by
  unfold editSubmitOrig
  rw [if_neg (by simp [hval])]
  unfold commitGate
  rw [if_neg (by simp [mergedTableOrig_length_inrange t selectedIdx selEmp form hidx])]

theorem editSubmitOrig_none_inv {t : Table} {selectedIdx : Nat} {selEmp form : Row} {u : Table}
    (h : editSubmitOrig t selectedIdx selEmp form = (u, none)) :
    u = mergedTableOrig t selectedIdx selEmp form ∧
      actualIdxOrig t selectedIdx selEmp < t.rows.length := by
  unfold editSubmitOrig at h
  by_cases hv : (pyFalsy (getCell form "Preferred Name") ||
      pyFalsy (getCell form "Work Email")) = true
  · rw [if_pos hv] at h
    have := congrArg Prod.snd h
    simp at this
  · rw [if_neg hv] at h
    obtain ⟨hu, hlen⟩ := commitGate_none h
    refine ⟨hu, ?_⟩
    by_cases hidx : actualIdxOrig t selectedIdx selEmp < t.rows.length
    · exact hidx
    · rw [hu, mergedTableOrig_length_oob t selectedIdx selEmp form hidx] at hlen
      omega

theorem mergedTableOrig_other_rows (t : Table) (selectedIdx : Nat) (selEmp form : Row)
    {k : Nat} (hidx : actualIdxOrig t selectedIdx selEmp < t.rows.length)
    (hk : k ≠ actualIdxOrig t selectedIdx selEmp) (c : String) :
    getCell ((mergedTableOrig t selectedIdx selEmp form).rows.getD k []) c =
      getCell (t.rows.getD k []) c := by
  simp only [mergedTableOrig]
  rw [if_pos (by simpa using hidx), getD_set_ne _ _ hk]
  by_cases hlt : k < t.rows.length
  · rw [getD_map _ [] [] (by simpa using hlt)]
    exact getCell_extendRow _ _ _
  · rw [List.getD_eq_default _ _ (by simpa using Nat.le_of_not_lt hlt),
      List.getD_eq_default _ _ (Nat.le_of_not_lt hlt)]

theorem mergedTableOrig_target_edited (t : Table) (selectedIdx : Nat) (selEmp form : Row)
    {c : String} {v : Value}
    (hidx : actualIdxOrig t selectedIdx selEmp < t.rows.length)
    (hc : rlookup c form = some v) :
    getCell ((mergedTableOrig t selectedIdx selEmp form).rows.getD
        (actualIdxOrig t selectedIdx selEmp) []) c = normalizeField c v := by
  simp only [mergedTableOrig]
  rw [if_pos (by simpa using hidx), getD_set_self _ _ (by simpa using hidx)]
  have h2 := rlookup_patchB_form t selEmp (actualIdxOrig t selectedIdx selEmp) hc
  have h3 : rlookup c (stripPatch (patchB t selEmp (actualIdxOrig t selectedIdx selEmp) form)) =
      some (normalizeField c v) := by
    rw [rlookup_stripPatch, h2]; rfl
  have hcu : c ∈ t.cols ++ newColsOf t (patchB t selEmp (actualIdxOrig t selectedIdx selEmp) form) :=
    (mem_colsU t _ c).mpr (Or.inr (by simp [h2]))
  rw [assignRowAll_in _ _ _ hcu]
  unfold getCell
  rw [rlookup_colsMap, if_pos hcu, h3]
  rfl

/-! ## Append lemmas -/

/-- Well-formedness of a table: a column is present in a row exactly when it
is one of the table's columns (spec invariant I1). -/
def tableWF (t : Table) : Prop :=
  ∀ r ∈ t.rows, ∀ c, (rlookup c r).isSome = true ↔ c ∈ t.cols

theorem validForm_guard {form : Row} (h : validForm form = true) :
    (pyFalsy (getCell form "Preferred Name") || pyFalsy (getCell form "Work Email")) = false := by
  unfold validForm at h
  cases h1 : pyFalsy (getCell form "Preferred Name") <;>
    cases h2 : pyFalsy (getCell form "Work Email") <;>
    rw [h1, h2] at h <;> simp_all

theorem validForm_email_key {form : Row} (h : validForm form = true) :
    "Work Email" ∈ form.map Prod.fst := by
  unfold validForm at h
  rw [← rlookup_isSome_iff]
  cases hx : rlookup "Work Email" form with
  | some v => simp
  | none =>
      rw [Bool.and_eq_true] at h
      have : getCell form "Work Email" = Value.null := by
        unfold getCell; rw [hx]; rfl
      rw [this] at h
      simp [pyFalsy] at h

theorem addSubmit_invalid (t : Table) (form : Row)
    (h : (pyFalsy (getCell form "Preferred Name") ||
        pyFalsy (getCell form "Work Email")) = true) :
    addSubmit t form = (t, some EditError.validationError) := by
  unfold addSubmit
  rw [if_pos h]

theorem addSubmit_fresh (t : Table) (form : Row)
    (hv : validForm form = true) (hE : (t.rows.isEmpty || t.cols.isEmpty) = true) :
    addSubmit t form = (⟨(buildPatch form).map Prod.fst, [buildPatch form]⟩, none) := by
  unfold addSubmit
  rw [if_neg (by simp [validForm_guard hv]), if_pos hE]

theorem addSubmit_concat (t : Table) (form : Row)
    (hv : validForm form = true) (hE : (t.rows.isEmpty || t.cols.isEmpty) = false) :
    addSubmit t form = (⟨addColsU t form, addRowsE t form ++ [addNewRow t form]⟩, none) := by
  unfold addSubmit
  rw [if_neg (by simp [validForm_guard hv]), if_neg (by simp [hE])]

theorem mem_addColsU (t : Table) (form : Row) (c : String) :
    c ∈ addColsU t form ↔ c ∈ t.cols ∨ c ∈ form.map Prod.fst := by
  unfold addColsU
  rw [mem_colsU, rlookup_isSome_iff, keys_buildPatch]

theorem rlookup_addNewRow_isSome (t : Table) (form : Row) (c : String) :
    (rlookup c (addNewRow t form)).isSome = true ↔ c ∈ addColsU t form ∨ c ∈ form.map Prod.fst := by
  unfold addNewRow
  cases hx : rlookup c (buildPatch form) with
  | some v =>
      have hk : c ∈ form.map Prod.fst := by
        rw [← keys_buildPatch, ← rlookup_isSome_iff]
        simp [hx]
      simp [rlookup_append_left _ hx, hk]
  | none =>
      have hk : c ∉ form.map Prod.fst := by
        rw [← keys_buildPatch, ← rlookup_isSome_iff]
        simp [hx]
      rw [rlookup_append_right _ hx, rlookup_colsMap]
      by_cases hcu : c ∈ addColsU t form
      · rw [if_pos (List.mem_filter.mpr ⟨hcu, by simpa [keys_buildPatch] using hk⟩)]
        simp [hcu]
      · rw [if_neg (fun hmem => hcu (List.mem_filter.mp hmem).1)]
        simp [hcu, hk]

theorem getCell_addNewRow_supplied {t : Table} {form : Row} {c : String} {v : Value}
    (hc : rlookup c form = some v) :
    getCell (addNewRow t form) c = buildStep c v := by
  unfold addNewRow
  have hb : rlookup c (buildPatch form) = some (buildStep c v) := by
    rw [rlookup_buildPatch, hc]; rfl
  unfold getCell
  rw [rlookup_append_left _ hb]
  rfl

theorem getCell_addNewRow_missing {t : Table} {form : Row} {c : String}
    (hc : rlookup c form = none) :
    getCell (addNewRow t form) c = Value.null := by
  unfold addNewRow
  have hb : rlookup c (buildPatch form) = none := by
    rw [rlookup_buildPatch, hc]; rfl
  unfold getCell
  rw [rlookup_append_right _ hb, rlookup_colsMap]
  by_cases h : c ∈ (addColsU t form).filter (fun c => decide (c ∉ (buildPatch form).map Prod.fst))
  · rw [if_pos h]; rfl
  · rw [if_neg h]; rfl

theorem tableWF_extendRow {t : Table} (hwf : tableWF t) {r : Row} (hr : r ∈ t.rows)
    (form : Row) (c : String) :
    (rlookup c (extendRow r (newColsOf t (buildPatch form)))).isSome = true ↔
      c ∈ addColsU t form := by
  rw [rlookup_extendRow_isSome, hwf r hr c]
  unfold addColsU
  rw [List.mem_append]

theorem addSubmit_step_facts (t : Table) (form : Row)
    (hv : validForm form = true) (hwf : tableWF t)
    (hE : (t.rows.isEmpty || t.cols.isEmpty) = true → t = Table.empty) :
    tableWF (addSubmit t form).1 ∧
    (((addSubmit t form).1.rows.isEmpty || (addSubmit t form).1.cols.isEmpty) = true →
      (addSubmit t form).1 = Table.empty) ∧
    (addSubmit t form).1.rows.length = t.rows.length + 1 ∧
    (∀ c, c ∈ (addSubmit t form).1.cols ↔ c ∈ t.cols ∨ c ∈ form.map Prod.fst) := by
  by_cases hEmp : (t.rows.isEmpty || t.cols.isEmpty) = true
  · have ht : t = Table.empty := hE hEmp
    rw [addSubmit_fresh t form hv hEmp]
    have hkeys : (buildPatch form).map Prod.fst = form.map Prod.fst := keys_buildPatch form
    refine ⟨?_, ?_, ?_, ?_⟩
    · intro r hr c
      have : r = buildPatch form := by simpa using hr
      subst this
      rw [rlookup_isSome_iff]
    · intro hcontra
      exfalso
      have h1 : ([buildPatch form] : List Row).isEmpty = false := rfl
      have h2 : ((buildPatch form).map Prod.fst).isEmpty = false := by
        have := validForm_email_key hv
        rw [← hkeys] at this
        cases hx : (buildPatch form).map Prod.fst with
        | nil => rw [hx] at this; simp at this
        | cons a l => rfl
      rw [h1, h2] at hcontra
      simp at hcontra
    · rw [ht]; rfl
    · intro c
      rw [ht, hkeys]
      simp [Table.empty]
  · have hEmp' : (t.rows.isEmpty || t.cols.isEmpty) = false := by
      cases hx : (t.rows.isEmpty || t.cols.isEmpty) with
      | true => exact absurd hx hEmp
      | false => rfl
    rw [addSubmit_concat t form hv hEmp']
    have hcolsne : t.cols.isEmpty = false := by
      cases hx : t.cols.isEmpty with
      | false => rfl
      | true => rw [hx] at hEmp'; simp at hEmp'
    refine ⟨?_, ?_, ?_, ?_⟩
    · intro r hr c
      rcases List.mem_append.mp hr with hrE | hrN
      · obtain ⟨r0, hr0, hre⟩ := List.mem_map.mp hrE
        subst hre
        exact tableWF_extendRow hwf hr0 form c
      · have : r = addNewRow t form := by simpa using hrN
        subst this
        rw [rlookup_addNewRow_isSome]
        constructor
        · rintro (h | h)
          · exact h
          · exact (mem_addColsU t form c).mpr (Or.inr h)
        · exact fun h => Or.inl h
    · intro hcontra
      exfalso
      have h1 : (addRowsE t form ++ [addNewRow t form]).isEmpty = false := by
        cases hx : addRowsE t form with
        | nil => rfl
        | cons a l => rfl
      have h2 : (addColsU t form).isEmpty = false := by
        unfold addColsU
        cases hx : t.cols with
        | nil => rw [hx] at hcolsne; simp at hcolsne
        | cons a l => rfl
      rw [h1, h2] at hcontra
      simp at hcontra
    · show (addRowsE t form ++ [addNewRow t form]).length = t.rows.length + 1
      rw [List.length_append]
      unfold addRowsE
      rw [List.length_map]
      rfl
    · exact mem_addColsU t form

theorem foldl_addSubmit (fs : List Row) (t : Table)
    (hv : ∀ f ∈ fs, validForm f = true) (hwf : tableWF t)
    (hE : (t.rows.isEmpty || t.cols.isEmpty) = true → t = Table.empty) :
    tableWF (fs.foldl (fun a f => (addSubmit a f).1) t) ∧
    (fs.foldl (fun a f => (addSubmit a f).1) t).rows.length = t.rows.length + fs.length ∧
    (∀ c, c ∈ (fs.foldl (fun a f => (addSubmit a f).1) t).cols ↔
      c ∈ t.cols ∨ ∃ f ∈ fs, c ∈ f.map Prod.fst) := by
  induction fs generalizing t with
  | nil => exact ⟨hwf, rfl, by simp⟩
  | cons f fs ih =>
      have hvf : validForm f = true := hv f (List.mem_cons_self f fs)
      have hvs : ∀ g ∈ fs, validForm g = true := fun g hg => hv g (List.mem_cons_of_mem f hg)
      obtain ⟨hwf1, hE1, hlen1, hcols1⟩ := addSubmit_step_facts t f hvf hwf hE
      obtain ⟨hwf2, hlen2, hcols2⟩ := ih (addSubmit t f).1 hvs hwf1 hE1
      refine ⟨hwf2, ?_, ?_⟩
      · show (fs.foldl (fun a g => (addSubmit a g).1) (addSubmit t f).1).rows.length = _
        rw [hlen2, hlen1]
        simp [Nat.add_comm, Nat.add_assoc, Nat.add_left_comm]
      · intro c
        show c ∈ (fs.foldl (fun a g => (addSubmit a g).1) (addSubmit t f).1).cols ↔ _
        rw [hcols2 c, hcols1 c]
        constructor
        · rintro ((h | h) | ⟨g, hg, hc⟩)
          · exact Or.inl h
          · exact Or.inr ⟨f, List.mem_cons_self f fs, h⟩
          · exact Or.inr ⟨g, List.mem_cons_of_mem f hg, hc⟩
        · rintro (h | ⟨g, hg, hc⟩)
          · exact Or.inl (Or.inl h)
          · rcases List.mem_cons.mp hg with he | he
            · subst he; exact Or.inl (Or.inr hc)
            · exact Or.inr ⟨g, he, hc⟩

theorem getD_mem {α : Type} {l : List α} {j : Nat} (d : α) (h : j < l.length) :
    l.getD j d ∈ l := by
  induction l generalizing j with
  | nil => simp at h
  | cons a rest ih =>
      cases j with
      | zero => simp [List.getD]
      | succ j' =>
          simp only [List.getD_cons_succ]
          exact List.mem_cons_of_mem _ (ih (Nat.lt_of_succ_lt_succ h))

theorem addSubmit_last_row (t : Table) (form : Row)
    (hv : validForm form = true) (hE : (t.rows.isEmpty || t.cols.isEmpty) = false) :
    (addSubmit t form).1.rows.getD t.rows.length [] = addNewRow t form := by
  rw [addSubmit_concat t form hv hE]
  show (addRowsE t form ++ [addNewRow t form]).getD t.rows.length [] = _
  have hl : t.rows.length = (addRowsE t form).length := by
    unfold addRowsE; rw [List.length_map]
  rw [hl, getD_length_append]

theorem addSubmit_old_rows (t : Table) (form : Row)
    (hv : validForm form = true) (hE : (t.rows.isEmpty || t.cols.isEmpty) = false)
    {j : Nat} (hj : j < t.rows.length) (c : String) :
    getCell ((addSubmit t form).1.rows.getD j []) c = getCell (t.rows.getD j []) c := by
  rw [addSubmit_concat t form hv hE]
  show getCell ((addRowsE t form ++ [addNewRow t form]).getD j []) c = _
  have hj' : j < (addRowsE t form).length := by
    unfold addRowsE; rw [List.length_map]; exact hj
  rw [getD_append_left _ _ hj']
  unfold addRowsE
  rw [getD_map _ [] [] hj]
  exact getCell_extendRow _ _ _

theorem tableWF_absent_null {t : Table} (hwf : tableWF t) {j : Nat} (hj : j < t.rows.length)
    {c : String} (hc : c ∉ t.cols) : getCell (t.rows.getD j []) c = Value.null := by
  have hmem := hwf _ (getD_mem [] hj) c
  cases hx : rlookup c (t.rows.getD j []) with
  | none => unfold getCell; rw [hx]; rfl
  | some v => exact absurd (hmem.mp (by rw [hx]; rfl)) hc

/-! ## Duplicate-identity counting (append) -/

theorem countP_addSubmit (t : Table) (form : Row) (v : Value)
    (hv : validForm form = true) (hE : (t.rows.isEmpty || t.cols.isEmpty) = false) :
    (addSubmit t form).1.rows.countP (fun r => decide (getCell r "Work Email" = v)) =
      t.rows.countP (fun r => decide (getCell r "Work Email" = v)) +
        (if getCell (addNewRow t form) "Work Email" = v then 1 else 0) := by
  rw [addSubmit_concat t form hv hE]
  show ((addRowsE t form ++ [addNewRow t form]).countP _) = _
  rw [List.countP_append]
  congr 1
  · unfold addRowsE
    rw [List.countP_map]
    apply List.countP_congr
    intro r _
    simp only [Function.comp]
    rw [getCell_extendRow]
  · by_cases h : getCell (addNewRow t form) "Work Email" = v
    · simp [List.countP, List.countP.go, h]
    · simp [List.countP, List.countP.go, h]

theorem getCell_addNewRow_email {t : Table} {form : Row} (hv : validForm form = true) :
    getCell (addNewRow t form) "Work Email" = getCell form "Work Email" := by
  have hk := validForm_email_key hv
  rw [← rlookup_isSome_iff] at hk
  cases hx : rlookup "Work Email" form with
  | none => rw [hx] at hk; simp at hk
  | some v =>
      rw [getCell_addNewRow_supplied hx]
      unfold buildStep isMandatory
      rw [if_pos (by simp)]
      unfold getCell
      rw [hx]
      rfl

/-! ## Filter-engine equivalence -/

theorem filter_step (t : Table) (c : String) (o : Option (List Value)) (p : Row → Bool)
    (ho : o = none ∨ ∃ l, o = some l ∧ l ≠ []) :
    (if pyTruthyList o && decide (c ∈ t.cols) then
        andMask (t.rows.map p) (colMask t.rows c (o.getD [])) else t.rows.map p) =
      t.rows.map (fun r => p r && predicatePasses t c o r) := by
  rcases ho with h | ⟨l, h, hl⟩
  · subst h
    simp [pyTruthyList, predicatePasses]
  · subst h
    by_cases hc : c ∈ t.cols
    · rw [if_pos (by simp [pyTruthyList, hl, hc])]
      rw [colMask_eq_map, andMask_maps]
      simp [predicatePasses, hc]
    · rw [if_neg (by simp [pyTruthyList, hc])]
      simp [predicatePasses, hc]

/-! ## Commit inversion and blank-normalization lemmas -/

theorem editSubmitFixed_none_inv {t : Table} {e : Value} {form : Row} {u : Table}
    (h : editSubmitFixed t e form = (u, none)) :
    u = mergedTableFixed t e form ∧ (emailMatches t e).isEmpty = false ∧
      (pyFalsy (getCell form "Preferred Name") ||
        pyFalsy (getCell form "Work Email")) = false := by
  unfold editSubmitFixed at h
  by_cases hv : (pyFalsy (getCell form "Preferred Name") ||
      pyFalsy (getCell form "Work Email")) = true
  · rw [if_pos hv] at h
    have := congrArg Prod.snd h
    simp at this
  · rw [if_neg hv] at h
    by_cases hm : (emailMatches t e).isEmpty = true
    · rw [if_pos hm] at h
      have := congrArg Prod.snd h
      simp at this
    · rw [if_neg hm] at h
      refine ⟨(commitGate_none h).1, ?_, ?_⟩
      · cases hx : (emailMatches t e).isEmpty with
        | false => rfl
        | true => exact absurd hx hm
      · cases hx : (pyFalsy (getCell form "Preferred Name") ||
            pyFalsy (getCell form "Work Email")) with
        | false => rfl
        | true => exact absurd hx hv

theorem stripApply_blank {s : String} (hs : isBlank s = true) :
    stripApply (Value.str s) = Value.null := by
  unfold stripApply
  rw [if_pos (by simp [stripNull, hs])]

theorem normalizeField_blank (f : String) {s : String} (hs : isBlank s = true) :
    normalizeField f (Value.str s) = Value.null := by
  unfold normalizeField buildStep
  by_cases hm : isMandatory f = true
  · rw [if_pos hm, stripApply_blank hs]
  · rw [if_neg hm]
    by_cases he : pyFalsy (Value.str s) = true
    · rw [if_pos he]; rfl
    · rw [if_neg he, stripApply_blank hs]

/-! ## Concrete fixtures -/

/-- Example table: two employees with distinct emails; the second row's
`Notes` cell holds the whitespace-only string `" "`. -/
def exTable : Table :=
  ⟨["Preferred Name", "Work Email", "Region", "Notes"],
   [[("Preferred Name", Value.str "Ann"), ("Work Email", Value.str "a@x.com"),
     ("Region", Value.str "East"), ("Notes", Value.str "keep")],
    [("Preferred Name", Value.str "Bob"), ("Work Email", Value.str "b@x.com"),
     ("Region", Value.str "West"), ("Notes", Value.str " ")]]⟩

/-- Example edit form: renames the second employee and submits an empty
`Personal` field; it does not edit `Region` or `Notes`. -/
def exForm : Row :=
  [("Preferred Name", Value.str "Bobby"), ("Work Email", Value.str "b@x.com"),
   ("Personal", Value.str "")]

/-- Example add form: valid mandatory fields, reusing an existing email. -/
def exAddForm : Row :=
  [("Preferred Name", Value.str "Cid"), ("Work Email", Value.str "b@x.com"),
   ("Location", Value.str "Rome")]

/-- Example stale row snapshot whose email matches no row of `exTable`. -/
def exStaleEmp : Row := [("Work Email", Value.str "zz@x.com")]

/-! ## Claim theorems -/

/-- C1: In the fixed revision, for every update whose selected identity
value ('Work Email') matches zero rows of the current table, the submit
handler returns the table byte-for-byte unchanged together with the
user-visible not-found error — no row is mutated and there is no fallback
to a positional index. -/
theorem update_fixed_identity_miss_safe (t : Table) (e : Value) (form : Row)
    (hname : pyFalsy (getCell form "Preferred Name") = false)
    (hemail : pyFalsy (getCell form "Work Email") = false)
    (hmiss : ∀ r ∈ t.rows, pdEq (getCell r "Work Email") e = false) :
    editSubmitFixed t e form = (t, some EditError.notFoundError) := by
  unfold editSubmitFixed
  rw [if_neg (by rw [hname, hemail]; simp)]
  have hm : (emailMatches t e).isEmpty = true :=
    (filter_isEmpty_iff t.rows _).mpr hmiss
  rw [if_pos hm]

theorem update_fixed_identity_miss_safe_witness :
    editSubmitFixed exTable (Value.str "c@x.com") exForm =
      (exTable, some EditError.notFoundError) :=
  update_fixed_identity_miss_safe exTable (Value.str "c@x.com") exForm
    (by decide) (by decide) (by decide)

/-- C2: Every update that commits (returns no error) conserves the row
count, in both revisions; and the commit gate aborts on any row-count
mismatch, returning the pre-update table with an integrity error. -/
theorem update_rowcount_conservation :
    (∀ (t : Table) (e : Value) (form : Row) (u : Table),
        editSubmitFixed t e form = (u, none) → u.rows.length = t.rows.length) ∧
    (∀ (t : Table) (i : Nat) (sel form : Row) (u : Table),
        editSubmitOrig t i sel form = (u, none) → u.rows.length = t.rows.length) ∧
    (∀ told tNew : Table, tNew.rows.length ≠ told.rows.length →
        commitGate told tNew = (told, some EditError.integrityError)) := by
  refine ⟨?_, ?_, ?_⟩
  · intro t e form u h
    obtain ⟨hu, hm, hv⟩ := editSubmitFixed_none_inv h
    rw [hu, mergedTableFixed_rows_length]
  · intro t i sel form u h
    obtain ⟨hu, hidx⟩ := editSubmitOrig_none_inv h
    rw [hu, mergedTableOrig_length_inrange t i sel form hidx]
  · intro told tNew hne
    unfold commitGate
    rw [if_pos hne]

theorem update_rowcount_conservation_witness :
    ((editSubmitFixed exTable (Value.str "b@x.com") exForm).1).rows.length =
        exTable.rows.length ∧
      commitGate exTable ⟨exTable.cols, []⟩ =
        (exTable, some EditError.integrityError) :=
  ⟨update_rowcount_conservation.1 exTable (Value.str "b@x.com") exForm
      (editSubmitFixed exTable (Value.str "b@x.com") exForm).1 (by decide),
   update_rowcount_conservation.2.2 exTable ⟨exTable.cols, []⟩ (by decide)⟩

/-- C6: An append whose mandatory fields ('Preferred Name' or 'Work Email')
are empty or absent is rejected with the user-visible required-field
validation error; no record is appended and the table is returned
unchanged. -/
theorem append_mandatory_validation (t : Table) (form : Row)
    (h : getCell form "Preferred Name" = Value.null ∨
         getCell form "Preferred Name" = Value.str "" ∨
         getCell form "Work Email" = Value.null ∨
         getCell form "Work Email" = Value.str "") :
    addSubmit t form = (t, some EditError.validationError) := by
  apply addSubmit_invalid
  rcases h with h | h | h | h <;> rw [h] <;> simp [pyFalsy]

theorem append_mandatory_validation_witness :
    addSubmit exTable [("Work Email", Value.str "b@x.com")] =
      (exTable, some EditError.validationError) :=
  append_mandatory_validation exTable [("Work Email", Value.str "b@x.com")]
    (by decide)

/-- C3 counterexample: on `exTable`, editing the second employee (selected
email `b@x.com`) with a form that does not edit `Notes` commits, yet the
target row's `Notes` cell changes from the whitespace-only string `" "` to
null — an unedited column does not keep its pre-existing value, because the
strip loop also normalizes carried-forward values. -/
theorem merge_unedited_whitespace_counterexample :
    (editSubmitFixed exTable (Value.str "b@x.com") exForm).2 = none ∧
    rlookup "Notes" exForm = none ∧
    "Notes" ∈ exTable.cols ∧
    targetIdxFixed exTable (Value.str "b@x.com") = 1 ∧
    getCell (exTable.rows.getD 1 []) "Notes" = Value.str " " ∧
    getCell ((editSubmitFixed exTable (Value.str "b@x.com") exForm).1.rows.getD 1 [])
        "Notes" = Value.null ∧
    Value.null ≠ Value.str " " := by
  decide

/-- C3 (amended): for every update where identity resolution succeeds, the
commit happens, no table column is dropped, every form-edited column of the
target row holds the normalized patch value, every column the form does not
edit keeps its pre-existing value except that an empty or whitespace-only
string value is normalized to null by the strip loop, and all rows other
than the target are unchanged (per-column values). -/
theorem update_fixed_merge_correct_amended (t : Table) (e : Value) (form : Row)
    (hname : pyFalsy (getCell form "Preferred Name") = false)
    (hemail : pyFalsy (getCell form "Work Email") = false)
    (hm : (emailMatches t e).isEmpty = false) :
    (editSubmitFixed t e form).2 = none ∧
    (∀ c ∈ t.cols, c ∈ (editSubmitFixed t e form).1.cols) ∧
    (∀ c v, rlookup c form = some v →
        getCell ((editSubmitFixed t e form).1.rows.getD (targetIdxFixed t e) []) c =
          normalizeField c v) ∧
    (∀ c ∈ t.cols, rlookup c form = none →
        getCell ((editSubmitFixed t e form).1.rows.getD (targetIdxFixed t e) []) c =
          stripApply (getCell (t.rows.getD (targetIdxFixed t e) []) c)) ∧
    (∀ k, k ≠ targetIdxFixed t e → ∀ c,
        getCell ((editSubmitFixed t e form).1.rows.getD k []) c =
          getCell (t.rows.getD k []) c) := by
  have hval : (pyFalsy (getCell form "Preferred Name") ||
      pyFalsy (getCell form "Work Email")) = false := by
    rw [hname, hemail]; rfl
  rw [editSubmitFixed_commit t e form hval hm]
  refine ⟨rfl, ?_, ?_, ?_, ?_⟩
  · intro c hc
    exact mergedTableFixed_cols_sup t e form hc
  · intro c v hc
    exact mergedTableFixed_target_edited t e form hm hc
  · intro c hc hn
    exact mergedTableFixed_target_carried t e form hm hc hn
  · intro k hk c
    exact mergedTableFixed_other_rows t e form hk c

theorem update_fixed_merge_correct_amended_witness :
    (editSubmitFixed exTable (Value.str "b@x.com") exForm).2 = none :=
  (update_fixed_merge_correct_amended exTable (Value.str "b@x.com") exForm
    (by decide) (by decide) (by decide)).1

/-- C4: In the original revision, for every update whose 'Work Email'
lookup (on the snapshot row's email) matches zero rows of the current
table, the handler falls back to the stored positional index, commits the
merge at that position with no error surfaced, writes every form field
there (normalized), and leaves every other row unchanged. -/
theorem update_orig_positional_fallback (t : Table) (idx : Nat) (selEmp form : Row)
    (hidx : idx < t.rows.length)
    (hname : pyFalsy (getCell form "Preferred Name") = false)
    (hemail : pyFalsy (getCell form "Work Email") = false)
    (hmiss : ∀ r ∈ t.rows,
        pdEq (getCell r "Work Email") (getCell selEmp "Work Email") = false) :
    (editSubmitOrig t idx selEmp form).2 = none ∧
    actualIdxOrig t idx selEmp = idx ∧
    (∀ c v, rlookup c form = some v →
        getCell ((editSubmitOrig t idx selEmp form).1.rows.getD idx []) c =
          normalizeField c v) ∧
    (∀ k, k ≠ idx → ∀ c,
        getCell ((editSubmitOrig t idx selEmp form).1.rows.getD k []) c =
          getCell (t.rows.getD k []) c) := by
  have hfb : actualIdxOrig t idx selEmp = idx := by
    apply actualIdxOrig_fallback
    exact (filter_isEmpty_iff t.rows _).mpr hmiss
  have hval : (pyFalsy (getCell form "Preferred Name") ||
      pyFalsy (getCell form "Work Email")) = false := by
    rw [hname, hemail]; rfl
  have hidx' : actualIdxOrig t idx selEmp < t.rows.length := by
    rw [hfb]; exact hidx
  rw [editSubmitOrig_commit t idx selEmp form hval hidx']
  refine ⟨rfl, hfb, ?_, ?_⟩
  · intro c v hc
    have h := mergedTableOrig_target_edited t idx selEmp form hidx' hc
    rw [hfb] at h
    exact h
  · intro k hk c
    have hk' : k ≠ actualIdxOrig t idx selEmp := by rw [hfb]; exact hk
    exact mergedTableOrig_other_rows t idx selEmp form hidx' hk' c

theorem update_orig_positional_fallback_witness :
    (editSubmitOrig exTable 0 exStaleEmp exForm).2 = none :=
  (update_orig_positional_fallback exTable 0 exStaleEmp exForm
    (by decide) (by decide) (by decide) (by decide)).1

/-- C5: In both revisions, every editable field submitted as an empty or
whitespace-only string is stored in the target row as null, never as an
empty string, whenever the update commits. -/
theorem update_empty_string_normalized :
    (∀ (t : Table) (e : Value) (form : Row) (u : Table) (f s : String),
        rlookup f form = some (Value.str s) → isBlank s = true →
        editSubmitFixed t e form = (u, none) →
        getCell (u.rows.getD (targetIdxFixed t e) []) f = Value.null) ∧
    (∀ (t : Table) (i : Nat) (sel form : Row) (u : Table) (f s : String),
        rlookup f form = some (Value.str s) → isBlank s = true →
        editSubmitOrig t i sel form = (u, none) →
        getCell (u.rows.getD (actualIdxOrig t i sel) []) f = Value.null) := by
  constructor
  · intro t e form u f s hf hs h
    obtain ⟨hu, hm, hv⟩ := editSubmitFixed_none_inv h
    rw [hu, mergedTableFixed_target_edited t e form hm hf]
    exact normalizeField_blank f hs
  · intro t i sel form u f s hf hs h
    obtain ⟨hu, hidx⟩ := editSubmitOrig_none_inv h
    rw [hu, mergedTableOrig_target_edited t i sel form hidx hf]
    exact normalizeField_blank f hs

theorem update_empty_string_normalized_witness :
    getCell (((editSubmitFixed exTable (Value.str "b@x.com") exForm).1).rows.getD
        (targetIdxFixed exTable (Value.str "b@x.com")) []) "Personal" = Value.null :=
  update_empty_string_normalized.1 exTable (Value.str "b@x.com") exForm
    (editSubmitFixed exTable (Value.str "b@x.com") exForm).1 "Personal" ""
    (by decide) (by decide) (by decide)

/-- C7: For sequences of valid appends from the empty session table, the
resulting column set equals the union of the columns ever supplied, every
row carries every column (null allowed), the row count equals the number of
appends; and one further append onto a non-empty result succeeds, grows the
row count by exactly one, places the new record last, gives the new record
null for every column it did not supply, and gives every pre-existing row
null in every newly introduced column. -/
theorem append_column_union_invariant (forms : List Row)
    (hv : ∀ f ∈ forms, validForm f = true) :
    (∀ c, c ∈ (appendAll forms).cols ↔ ∃ f ∈ forms, c ∈ f.map Prod.fst) ∧
    (∀ r ∈ (appendAll forms).rows, ∀ c,
        (rlookup c r).isSome = true ↔ c ∈ (appendAll forms).cols) ∧
    (appendAll forms).rows.length = forms.length ∧
    (∀ form, validForm form = true →
      ((appendAll forms).rows.isEmpty || (appendAll forms).cols.isEmpty) = false →
      (addSubmit (appendAll forms) form).2 = none ∧
      (addSubmit (appendAll forms) form).1.rows.length =
        (appendAll forms).rows.length + 1 ∧
      (addSubmit (appendAll forms) form).1.rows.getD (appendAll forms).rows.length [] =
        addNewRow (appendAll forms) form ∧
      (∀ c, rlookup c form = none →
        getCell (addNewRow (appendAll forms) form) c = Value.null) ∧
      (∀ j, j < (appendAll forms).rows.length → ∀ c, c ∉ (appendAll forms).cols →
        getCell ((addSubmit (appendAll forms) form).1.rows.getD j []) c = Value.null)) := by
  have hwfE : tableWF Table.empty := by
    intro r hr
    simp [Table.empty] at hr
  obtain ⟨hwf, hlen, hcols⟩ :=
    foldl_addSubmit forms Table.empty hv hwfE (fun _ => rfl)
  refine ⟨?_, hwf, ?_, ?_⟩
  · intro c
    have h := hcols c
    simpa [Table.empty] using h
  · simpa [Table.empty] using hlen
  · intro form hvf hne
    refine ⟨?_, ?_, addSubmit_last_row _ _ hvf hne, ?_, ?_⟩
    · rw [addSubmit_concat _ _ hvf hne]
    · rw [addSubmit_concat _ _ hvf hne]
      show (addRowsE _ _ ++ [addNewRow _ _]).length = _
      rw [List.length_append]
      unfold addRowsE
      rw [List.length_map]
      rfl
    · intro c hcn
      exact getCell_addNewRow_missing hcn
    · intro j hj c hc
      rw [addSubmit_old_rows _ _ hvf hne hj]
      exact tableWF_absent_null hwf hj hc

theorem append_column_union_invariant_witness :
    (appendAll [exAddForm]).rows.length = [exAddForm].length :=
  (append_column_union_invariant [exAddForm] (by decide)).2.2.1

/-- C8: For every table and predicate lists that are either not supplied or
non-empty, the filter engine returns the table's columns and exactly the
rows passing every supplied predicate (membership in the allowed set when
the column exists; predicates over absent columns and absent predicates are
no constraint), as stated by the spec's filter-engine interface. -/
theorem apply_filters_characterization (t : Table)
    (regions roles business_units employee_types : Option (List Value))
    (h1 : regions = none ∨ ∃ l, regions = some l ∧ l ≠ [])
    (h2 : roles = none ∨ ∃ l, roles = some l ∧ l ≠ [])
    (h3 : business_units = none ∨ ∃ l, business_units = some l ∧ l ≠ [])
    (h4 : employee_types = none ∨ ∃ l, employee_types = some l ∧ l ≠ []) :
    apply_filters_fast t regions roles business_units employee_types =
      ⟨t.cols, specFilterRows t regions roles business_units employee_types⟩ := by
  simp only [apply_filters_fast]
  rw [replicate_length_eq_map t.rows]
  rw [filter_step t "Region" regions _ h1,
    filter_step t "Role" roles _ h2,
    filter_step t "Business Unit" business_units _ h3,
    filter_step t "Employee Type" employee_types _ h4,
    selectRows_map_pred]
  unfold specFilterRows
  congr 1

theorem apply_filters_characterization_witness :
    apply_filters_fast exTable (some [Value.str "East"]) none none none =
      ⟨exTable.cols, specFilterRows exTable (some [Value.str "East"]) none none none⟩ :=
  apply_filters_characterization exTable (some [Value.str "East"]) none none none
    (Or.inr ⟨[Value.str "East"], rfl, by decide⟩) (Or.inl rfl) (Or.inl rfl) (Or.inl rfl)

/-- Example table with duplicate identity values: two rows share the email
`b@x.com`. -/
def exDupTable : Table :=
  ⟨["Preferred Name", "Work Email"],
   [[("Preferred Name", Value.str "B1"), ("Work Email", Value.str "b@x.com")],
    [("Preferred Name", Value.str "B2"), ("Work Email", Value.str "b@x.com")]]⟩

/-- C9: In the fixed revision, when more than one row matches the selected
identity value, the update commits, the resolved target is the earliest
matching row (its index is a lower bound of every matching index), the
form's fields are written there, and every other row — including every
other matching row — is left unchanged; uniqueness is assumed, not
checked. -/
theorem update_fixed_first_match_target (t : Table) (e : Value) (form : Row)
    (i j : Nat) (hi : i < t.rows.length) (hj : j < t.rows.length) (_hij : i ≠ j)
    (hmi : pdEq (getCell (t.rows.getD i []) "Work Email") e = true)
    (hmj : pdEq (getCell (t.rows.getD j []) "Work Email") e = true)
    (hname : pyFalsy (getCell form "Preferred Name") = false)
    (hemail : pyFalsy (getCell form "Work Email") = false) :
    (editSubmitFixed t e form).2 = none ∧
    targetIdxFixed t e ≤ i ∧ targetIdxFixed t e ≤ j ∧
    targetIdxFixed t e < t.rows.length ∧
    pdEq (getCell (t.rows.getD (targetIdxFixed t e) []) "Work Email") e = true ∧
    (∀ c v, rlookup c form = some v →
        getCell ((editSubmitFixed t e form).1.rows.getD (targetIdxFixed t e) []) c =
          normalizeField c v) ∧
    (∀ k, k ≠ targetIdxFixed t e → ∀ c,
        getCell ((editSubmitFixed t e form).1.rows.getD k []) c =
          getCell (t.rows.getD k []) c) := by
  have hm : (emailMatches t e).isEmpty = false := by
    cases hx : (emailMatches t e).isEmpty with
    | false => rfl
    | true =>
        have hall := (filter_isEmpty_iff t.rows _).mp hx (t.rows.getD i []) (getD_mem [] hi)
        rw [hall] at hmi
        simp at hmi
  have hval : (pyFalsy (getCell form "Preferred Name") ||
      pyFalsy (getCell form "Work Email")) = false := by
    rw [hname, hemail]; rfl
  rw [editSubmitFixed_commit t e form hval hm]
  refine ⟨rfl, targetIdxFixed_le_of_match t e hi hmi,
    targetIdxFixed_le_of_match t e hj hmj, targetIdxFixed_lt t e hm,
    targetIdxFixed_matches t e hm, ?_, ?_⟩
  · intro c v hc
    exact mergedTableFixed_target_edited t e form hm hc
  · intro k hk c
    exact mergedTableFixed_other_rows t e form hk c

theorem update_fixed_first_match_target_witness :
    (editSubmitFixed exDupTable (Value.str "b@x.com") exForm).2 = none :=
  (update_fixed_first_match_target exDupTable (Value.str "b@x.com") exForm 0 1
    (by decide) (by decide) (by decide) (by decide) (by decide)
    (by decide) (by decide)).1

/-- C10: The append handler never inspects existing rows for the new
record's identity value: for every non-empty table and valid new record
whose 'Work Email' equals the email of at least one existing row, the
append succeeds with no error and the count of rows holding that identity
value grows — the result holds at least two rows with the same identity
value. -/
theorem append_allows_duplicate_identity (t : Table) (form : Row) (v : Value)
    (hv : validForm form = true)
    (hne : (t.rows.isEmpty || t.cols.isEmpty) = false)
    (hform : getCell form "Work Email" = v)
    (hdup : 1 ≤ t.rows.countP (fun r => decide (getCell r "Work Email" = v))) :
    (addSubmit t form).2 = none ∧
    2 ≤ (addSubmit t form).1.rows.countP (fun r => decide (getCell r "Work Email" = v)) := by
  refine ⟨by rw [addSubmit_concat t form hv hne], ?_⟩
  rw [countP_addSubmit t form v hv hne]
  rw [if_pos (by rw [getCell_addNewRow_email hv, hform])]
  omega

theorem append_allows_duplicate_identity_witness :
    2 ≤ (addSubmit exTable exAddForm).1.rows.countP
        (fun r => decide (getCell r "Work Email" = Value.str "b@x.com")) :=
  (append_allows_duplicate_identity exTable exAddForm (Value.str "b@x.com")
    (by decide) (by decide) (by decide) (by decide)).2
